import Mathlib

/-!
Verification development for the Playbook Forge text-to-graph conversion
engine.  The Python sources `api/parsers/markdown_parser.py`,
`api/parsers/mermaid_parser.py`, the data models `api/models.py` and the
format selector in `api/routers/parse.py` are shallowly embedded below.

Modelling conventions:
* Python strings are `List Char` (`Str`); `str.strip()`, `str.split('\n')`,
  `str.startswith`, substring tests and `str.lower()` are implemented
  character by character over the ASCII whitespace set used by the inputs
  (`' '`, `'\t'`, `'\n'`, `'\r'`, `'\x0b'`, `'\x0c'`).
* The regular expressions of the sources are hand-compiled to equivalent
  character-level scanners.  Each scanner's doc comment names the pattern it
  implements; backtracking behaviour of Python `re` (greedy `\s*`, lazy
  `[^-]+?`, leftmost match for `re.split` / `re.search`, dict-insertion-order
  iteration over `NODE_PATTERNS`) is reproduced faithfully.
* Pydantic validation of `PlaybookNode` (`label : str` is a required field)
  is modelled by making node construction fail when the label would be
  `None`: the mermaid converter therefore returns a success flag, `false`
  meaning the Python code raises `ValidationError` at that point.
* Loops that are not structurally recursive take an explicit fuel argument
  that is always instantiated large enough (one unit per input line), so the
  out-of-fuel branch is never taken on the actual call.
-/

/-- Python strings, modelled as lists of characters. -/
abbrev Str := List Char

/-- ASCII whitespace recognized by Python `str.strip()` and `\s`. -/
def isPyWs (c : Char) : Bool :=
  c = ' ' || c = '\t' || c = '\n' || c = '\r' || c = '\x0b' || c = '\x0c'

/-- Python `str.strip()`. -/
def pyStrip (s : Str) : Str :=
  ((s.dropWhile isPyWs).reverse.dropWhile isPyWs).reverse

/-- Python `str.split('\n')`. -/
def splitOnNl : Str → List Str
  | [] => [[]]
  | c :: rest =>
    if c = '\n' then [] :: splitOnNl rest
    else
      match splitOnNl rest with
      | [] => [[c]]
      | l :: ls => (c :: l) :: ls

/-- Python `'\n'.join(lines)`. -/
def joinNl : List Str → Str
  | [] => []
  | [l] => l
  | l :: ls => l ++ '\n' :: joinNl ls

/-- Python `s.startswith(p)`. -/
def hasPre : Str → Str → Bool
  | [], _ => true
  | _ :: _, [] => false
  | p :: ps, c :: cs => p = c && hasPre ps cs

/-- Python `p in s` (substring containment). -/
def hasSub (p : Str) : Str → Bool
  | [] => hasPre p []
  | c :: cs => hasPre p (c :: cs) || hasSub p cs

/-- Python `s.lower()` (ASCII). -/
def lowerStr (s : Str) : Str := s.map Char.toLower

/-- The character class `[A-Za-z0-9_]` of the mermaid identifier patterns. -/
def isWordChar (c : Char) : Bool := c.isAlpha || c.isDigit || c = '_'

/-- Decimal digit character for digits `0`–`9`. -/
def digCh : Nat → Char
  | 0 => '0' | 1 => '1' | 2 => '2' | 3 => '3' | 4 => '4'
  | 5 => '5' | 6 => '6' | 7 => '7' | 8 => '8' | _ => '9'

/-- Numeric value of a decimal digit character. -/
def digVal (c : Char) : Nat := c.toNat - 48

/-- Decimal representation of a natural number (fuel-driven, fuel `n + 1`
is always sufficient). -/
def natToDigsAux : Nat → Nat → Str
  | 0, _ => []
  | fuel + 1, n =>
    if n < 10 then [digCh n]
    else natToDigsAux fuel (n / 10) ++ [digCh (n % 10)]

/-- Python `str(n)` for a natural number. -/
def natToDigs (n : Nat) : Str := natToDigsAux (n + 1) n

/-- Value of a digit string, used to show `natToDigs` is injective. -/
def digsVal (s : Str) : Nat := s.foldl (fun a c => a * 10 + digVal c) 0

/-- The id string `node_<n>` produced by `_create_node_id`. -/
def nodeIdStr (n : Nat) : Str := ("node_".data) ++ natToDigs n

/-- The id string `edge_<n>` produced by `_create_edge`. -/
def edgeIdStr (n : Nat) : Str := ("edge_".data) ++ natToDigs n

/-! ## Graph IR (`api/models.py`)

`PlaybookNode.metadata` is a `Dict[str, Any]`; the parsers only ever store
strings, ints, booleans and `None` in it, so its values are modelled by
`MVal`.  `PlaybookNode.label` is a required `str` field: constructing a node
with `label=None` raises a pydantic `ValidationError` (this matters for the
mermaid converter, see `MermaidParser.getOrCreateNode`). -/

/-- A metadata value (string, int, bool or `None`). -/
inductive MVal
  | s (v : Str)
  | n (v : Nat)
  | b (v : Bool)
  | nil
deriving DecidableEq

/-- An ordered string-keyed metadata dictionary. -/
abbrev Metadata := List (Str × MVal)

/-- `PlaybookNode` of `api/models.py`. -/
structure PlaybookNode where
  id : Str
  label : Str
  type : Str
  metadata : Metadata
deriving DecidableEq

/-- `PlaybookEdge` of `api/models.py`; `label` is `Optional[str]`. -/
structure PlaybookEdge where
  id : Str
  source : Str
  target : Str
  label : Option Str
deriving DecidableEq

/-- `PlaybookGraph` of `api/models.py`. -/
structure PlaybookGraph where
  nodes : List PlaybookNode
  edges : List PlaybookEdge
deriving DecidableEq

/-- The ids of the nodes of a list, in order. -/
def nodeIds (ns : List PlaybookNode) : List Str := ns.map PlaybookNode.id

/-- The ids of the edges of a list, in order. -/
def edgeIds (es : List PlaybookEdge) : List Str := es.map PlaybookEdge.id

/-! ## Outline Converter (`api/parsers/markdown_parser.py`) -/

namespace MarkdownParser

/-- The mutable fields of a `MarkdownParser` instance. -/
structure MdState where
  nodes : List PlaybookNode
  edges : List PlaybookEdge
  nodeCounter : Nat
  edgeCounter : Nat
  lastNodeId : Option Str
  phaseStack : List Str
deriving DecidableEq

/-- The state set up by `__init__` and by the reset at the top of `parse`. -/
def initState : MdState :=
  { nodes := [], edges := [], nodeCounter := 0, edgeCounter := 0,
    lastNodeId := none, phaseStack := [] }

/-- `_create_node_id` followed by `self.nodes.append(PlaybookNode(...))`:
every call of `_create_node_id` in the source is immediately followed by
appending a node with that id. -/
def MdState.addNode (st : MdState) (label type : Str) (md : Metadata) :
    Str × MdState :=
  let nid := nodeIdStr st.nodeCounter
  (nid, { st with
            nodes := st.nodes ++ [⟨nid, label, type, md⟩],
            nodeCounter := st.nodeCounter + 1 })

/-- `_create_edge`. -/
def MdState.addEdge (st : MdState) (src tgt : Str) (lab : Option Str) :
    MdState :=
  { st with
      edges := st.edges ++ [⟨edgeIdStr st.edgeCounter, src, tgt, lab⟩],
      edgeCounter := st.edgeCounter + 1 }

/-- The `if self.last_node_id: self._create_edge(self.last_node_id, nid)`
pattern that follows most node creations. -/
def MdState.connectLast (st : MdState) (tgt : Str) : MdState :=
  match st.lastNodeId with
  | some l => st.addEdge l tgt none
  | none => st

/-- `_parse_header`: `#` run gives the level, the rest (with leading `#`
stripped) the label; updates the phase stack exactly as the source does. -/
def parseHeader (st : MdState) (stripped : Str) : MdState :=
  let level := (stripped.takeWhile (fun c => c = '#')).length
  let label := pyStrip (stripped.dropWhile (fun c => c = '#'))
  let (nid, st1) := st.addNode label ("phase".data)
      [(("level".data), .n level), (("header_type".data), .s ('h' :: natToDigs level))]
  let st2 := st1.connectLast nid
  let stack :=
    if level = 1 then [nid]
    else if level = 2 then
      match st2.phaseStack with
      | h :: _ => [h, nid]
      | [] => st2.phaseStack
    else st2.phaseStack
  { st2 with lastNodeId := some nid, phaseStack := stack }

/-- Whether `re.match(r'^\d+\.', stripped)` succeeds. -/
def startsNumDot (s : Str) : Bool :=
  let ds := s.takeWhile Char.isDigit
  ds ≠ [] && hasPre (".".data) (s.drop ds.length)

/-- The group of `re.match(r'^\d+\.\s*(.+)$', line)` given `r`, the text
after the dot: `\s*` is greedy but backtracks one character when `(.+)`
would otherwise be empty; `none` when the whole match fails (`r` empty). -/
def numTail (r : Str) : Option Str :=
  if r = [] then none
  else some (r.drop (min (r.takeWhile isPyWs).length (r.length - 1)))

/-- `_parse_numbered_list_item`. -/
def parseNumbered (st : MdState) (stripped : Str) : MdState :=
  match numTail (stripped.drop ((stripped.takeWhile Char.isDigit).length + 1)) with
  | none => st
  | some g =>
    let label := pyStrip g
    let (nid, st1) := st.addNode label ("step".data)
        [(("step_type".data), .s ("sequential".data))]
    let st2 := st1.connectLast nid
    { st2 with lastNodeId := some nid }

/-- The decision keywords tested (as substrings of the lowered content) by
`_parse_bullet_point`. -/
def decisionKeywords : List Str :=
  [("if ".data), ("when ".data), ("else".data), ("otherwise".data),
   ("or if".data), ("elif".data)]

/-- The prefixes stripped from the condition text by `_extract_condition`. -/
def conditionPre : List Str :=
  [("if ".data), ("when ".data), ("else ".data), ("otherwise ".data),
   ("or if ".data), ("elif ".data)]

/-- The prefix-stripping loop of `_extract_condition` (first matching prefix
only, tested on the lowered content, removed from the original). -/
def stripCondPre (content : Str) : List Str → Str
  | [] => content
  | p :: ps =>
    if hasPre p (lowerStr content) then pyStrip (content.drop p.length)
    else stripCondPre content ps

/-- `_extract_condition`. -/
def extractCondition (content : Str) : Str :=
  let c1 := stripCondPre content conditionPre
  let c2 := match c1 with
            | [] => c1
            | c :: rest => c.toUpper :: rest
  match c2 with
  | [] => c2
  | _ => if c2.getLast? = some '?' then c2 else c2 ++ ['?']

/-- A raw line opening a decision branch: `_parse_decision_node` accepts
lines starting with two or four spaces followed by `-` or `*`. -/
def isBranchLine (l : Str) : Bool :=
  hasPre ("  -".data) l || hasPre ("  *".data) l ||
  hasPre ("    -".data) l || hasPre ("    *".data) l

/-- The merge-node step inside the branch loop of `_parse_decision_node`:
`if not merge_node_id and len(branches) > 1`, create the shared merge node;
returns the state and the (possibly new) merge id. -/
def mergeStep (st2 : MdState) (m : Option Str) (total : Nat) :
    MdState × Option Str :=
  if m = none ∧ 1 < total then
    ((st2.addNode ("Continue".data) ("merge".data)
        [(("merge_type".data), .s ("decision".data))]).2,
     some (st2.addNode ("Continue".data) ("merge".data)
        [(("merge_type".data), .s ("decision".data))]).1)
  else (st2, m)

/-- `if merge_node_id: self._create_edge(branch_node_id, merge_node_id)`. -/
def branchMergeEdge (q : MdState × Option Str) (bid : Str) : MdState :=
  match q.2 with
  | some mid => q.1.addEdge bid mid none
  | none => q.1

/-- The branch-creation loop of `_parse_decision_node`: for each branch
content, create a `step` node, an edge `decision → branch` carrying the
branch label, create the shared merge node the first time one is needed
(only when there is more than one branch), and connect the branch to it. -/
def processBranches (dId : Str) (hasElse : Bool) (total : Nat) :
    List Str → Bool → MdState → Option Str → MdState × Option Str
  | [], _, st, m => (st, m)
  | bc :: rest, first, st, m =>
    let blab := if hasElse then ("no".data)
                else if first then ("yes".data) else ("no".data)
    let p := st.addNode bc ("step".data) [(("branch".data), .s blab)]
    let q := mergeStep (p.2.addEdge dId p.1 (some blab)) m total
    processBranches dId hasElse total rest false (branchMergeEdge q p.1) q.2

/-- `_parse_decision_node`: returns the new state and the number of branch
lines consumed beyond the decision line itself. -/
def parseDecision (st : MdState) (content : Str) (rest : List Str) :
    MdState × Nat :=
  let p := st.addNode (extractCondition content) ("decision".data)
      [(("condition".data), .s content)]
  let branchLines := rest.takeWhile isBranchLine
  let branches := branchLines.map (fun l => pyStrip ((pyStrip l).drop 1))
  let hasElse := hasSub ("else".data) (lowerStr content) ||
                 hasSub ("otherwise".data) (lowerStr content)
  let q := processBranches p.1 hasElse branches.length branches true
      (p.2.connectLast p.1) none
  ({ q.1 with lastNodeId := some (q.2.getD p.1) }, branchLines.length)

/-- `_parse_bullet_point`: the content after the bullet marker is tested
against the decision keywords; a plain bullet becomes a `step` node. -/
def parseBullet (st : MdState) (stripped : Str) (rest : List Str) :
    MdState × Nat :=
  let content := pyStrip (stripped.drop 1)
  if decisionKeywords.any (fun k => hasSub k (lowerStr content)) then
    parseDecision st content rest
  else
    let p := st.addNode content ("step".data)
        [(("step_type".data), .s ("bullet".data))]
    ({ p.2.connectLast p.1 with lastNodeId := some p.1 }, 0)

/-- `_parse_code_block`: collect the raw lines up to the closing fence,
create an `execute` node; returns the new state and the number of lines
consumed beyond the opening fence (code lines plus the closing fence). -/
def parseCode (st : MdState) (stripped : Str) (rest : List Str) :
    MdState × Nat :=
  let language := pyStrip (stripped.drop 3)
  let codeLines := rest.takeWhile (fun l => !hasPre ("```".data) (pyStrip l))
  let code := joinNl codeLines
  let label := if language = [] then ("Execute code".data)
               else ("Execute ".data) ++ language
  let p := st.addNode label ("execute".data)
      [(("code".data), .s code), (("language".data), .s language)]
  ({ p.2.connectLast p.1 with lastNodeId := some p.1 }, codeLines.length + 1)

/-- The line-dispatch loop of `parse`.  The fuel argument dominates the
number of remaining lines on every actual call (each iteration consumes at
least the current line), so the fuel-exhaustion branch is never taken. -/
def mdLoop : Nat → List Str → MdState → MdState
  | _, [], st => st
  | 0, _ :: _, st => st
  | fuel + 1, line :: rest, st =>
    let stripped := pyStrip line
    if stripped = [] then mdLoop fuel rest st
    else if hasPre ("#".data) stripped then mdLoop fuel rest (parseHeader st stripped)
    else if startsNumDot stripped then mdLoop fuel rest (parseNumbered st stripped)
    else if hasPre ("-".data) stripped || hasPre ("*".data) stripped then
      mdLoop fuel (rest.drop (parseBullet st stripped rest).2)
        (parseBullet st stripped rest).1
    else if hasPre ("```".data) stripped then
      mdLoop fuel (rest.drop (parseCode st stripped rest).2)
        (parseCode st stripped rest).1
    else mdLoop fuel rest st

/-- `MarkdownParser.parse`: reset the state, scan the lines, return the
graph. -/
def parse (content : Str) : PlaybookGraph :=
  let lines := splitOnNl content
  let st := mdLoop lines.length lines initState
  ⟨st.nodes, st.edges⟩

/-- `parse` as a method of an instance: the state reset at the top of
`parse` makes the prior instance state irrelevant; the returned instance
state is the state at the end of the scan. -/
def parseInst (_inst : MdState) (content : Str) : PlaybookGraph × MdState :=
  let lines := splitOnNl content
  let st := mdLoop lines.length lines initState
  (⟨st.nodes, st.edges⟩, st)

end MarkdownParser

/-! ## Diagram Converter (`api/parsers/mermaid_parser.py`) -/

namespace MermaidParser

/-- Matcher for an id followed by a single-delimiter shape, compiled from
`([A-Za-z0-9_]+)\s*<open>([^<close>]+)<close>` under `re.match`: the word
run, whitespace run and label run are all forced-maximal because the
character that must follow each run is excluded from it.  Returns the id
and the raw label.  With `'>'`/`']'` this is also the flag pattern
`>([^\]]+)\]`. -/
def shape1 (opnC closeC : Char) (t : Str) : Option (Str × Str) :=
  let idp := t.takeWhile isWordChar
  if idp = [] then none
  else
    match (t.drop idp.length).dropWhile isPyWs with
    | c :: r =>
      if c = opnC then
        let lab := r.takeWhile (fun x => x ≠ closeC)
        if lab = [] then none
        else if (r.drop lab.length).head? = some closeC then some (idp, lab)
        else none
      else none
    | [] => none

/-- Matcher for the doubled-delimiter shapes `\(\(([^\)]+)\)\)` and
`\[\[([^\]]+)\]\]` (same forced-maximal argument as `shape1`). -/
def shape2 (opnC closeC : Char) (t : Str) : Option (Str × Str) :=
  let idp := t.takeWhile isWordChar
  if idp = [] then none
  else
    match (t.drop idp.length).dropWhile isPyWs with
    | c1 :: c2 :: r =>
      if c1 = opnC ∧ c2 = opnC then
        let lab := r.takeWhile (fun x => x ≠ closeC)
        if lab = [] then none
        else
          match r.drop lab.length with
          | d1 :: d2 :: _ => if d1 = closeC ∧ d2 = closeC then some (idp, lab) else none
          | _ => none
      else none
    | _ => none

/-- `NODE_PATTERNS` in its Python dict insertion order (the order the
`for pattern, node_type in self.NODE_PATTERNS.items()` loop iterates in):
`[text]` step, `{text}` decision, `((text))` phase, `(text)` step,
`>text]` step, `[[text]]` step. -/
def shapeTable : List ((Str → Option (Str × Str)) × Str) :=
  [(shape1 '[' ']', ("step".data)),
   (shape1 '\x7b' '\x7d', ("decision".data)),
   (shape2 '(' ')', ("phase".data)),
   (shape1 '(' ')', ("step".data)),
   (shape1 '>' ']', ("step".data)),
   (shape2 '[' ']', ("step".data))]

/-- The pattern loop of `_extract_node_info`: first matching shape wins;
the label is `match.group(2).strip()`. -/
def tryShapes (t : Str) :
    List ((Str → Option (Str × Str)) × Str) → Option (Str × Str × Str)
  | [] => none
  | (f, ty) :: rest =>
    match f t with
    | some (i, lab) => some (i, pyStrip lab, ty)
    | none => tryShapes t rest

/-- `_extract_node_info`: strip, try the shape table, then the bare-id
pattern `^([A-Za-z0-9_]+)$`. -/
def extractNodeInfo (text : Str) : Option Str × Option Str × Option Str :=
  match tryShapes (pyStrip text) shapeTable with
  | some (i, lab, ty) => (some i, some lab, some ty)
  | none =>
    if pyStrip text ≠ [] ∧ (pyStrip text).all isWordChar then
      (some (pyStrip text), none, none)
    else (none, none, none)

/-- Scanner for the tail of a labeled edge pattern such as
`--\s*([^-]+?)\s*-->` after its opening delimiter: at least one character
of the class `[^bad]` must be consumed, then the first position where the
closing delimiter starts ends the match (the Python engine's greedy
`\s*` / lazy `[^bad]+?` backtracking yields exactly the leftmost closing
position reachable through `[^bad]` characters; the raw span between
delimiters differs from the engine's group(1) only by surrounding
whitespace, which `.strip()` removes at every use site). -/
def labScan (close : Str) (bad : Char) : Str → Str → Option (Str × Str)
  | accX, t =>
    if hasPre close t then some (accX.reverse, t.drop close.length)
    else
      match t with
      | [] => none
      | c :: r => if c = bad then none else labScan close bad (c :: accX) r

/-- One-or-more step of `labScan` (the `+` in `[^bad]+?`). -/
def labInner (close : Str) (bad : Char) : Str → Option (Str × Str)
  | [] => none
  | c :: r => if c = bad then none else labScan close bad [c] r

/-- Leftmost match of a labeled edge pattern: returns the text before the
match, the text between the delimiters, and the text after the match. -/
def findLab (opn close : Str) (bad : Char) : Str → Option (Str × Str × Str)
  | [] => none
  | c :: rest =>
    match (if hasPre opn (c :: rest) then labInner close bad ((c :: rest).drop opn.length) else none) with
    | some (x, after) => some ([], x, after)
    | none =>
      match findLab opn close bad rest with
      | some (pre, x, a) => some (c :: pre, x, a)
      | none => none

/-- `re.split` for a labeled edge pattern (captured groups are kept, as
Python's `re.split` does for patterns with groups).  Each match consumes at
least one character, so fuel `s.length` suffices. -/
def splitLabAux (opn close : Str) (bad : Char) : Nat → Str → List Str
  | 0, s => [s]
  | fuel + 1, s =>
    match findLab opn close bad s with
    | none => [s]
    | some (pre, x, rest) => pre :: x :: splitLabAux opn close bad fuel rest

/-- `re.split` for a labeled edge pattern. -/
def splitLab (opn close : Str) (bad : Char) (s : Str) : List Str :=
  splitLabAux opn close bad s.length s

/-- Leftmost occurrence of a literal pattern: text before and text after. -/
def findLit (pat : Str) : Str → Option (Str × Str)
  | [] => none
  | c :: rest =>
    if hasPre pat (c :: rest) then some ([], (c :: rest).drop pat.length)
    else
      match findLit pat rest with
      | some (pre, a) => some (c :: pre, a)
      | none => none

/-- `re.split` for a literal (group-free) pattern; the patterns used are
all nonempty, so each match consumes at least one character and fuel
`s.length` suffices. -/
def splitLitAux (pat : Str) : Nat → Str → List Str
  | 0, s => [s]
  | fuel + 1, s =>
    match findLit pat s with
    | none => [s]
    | some (pre, rest) => pre :: splitLitAux pat fuel rest

/-- `re.split` for a literal pattern. -/
def splitLit (pat : Str) (s : Str) : List Str := splitLitAux pat s.length s

/-- Match length of `(?:-->|-\.->|==>|---+>)` at the current position,
alternatives tried in order; `---+>` is a maximal dash run of length at
least three followed by `>` (shorter runs leave a `-` where `>` is
required, so the greedy run cannot backtrack). -/
def connAt (s : Str) : Option Nat :=
  if hasPre ("-->".data) s then some 3
  else if hasPre ("-.->".data) s then some 4
  else if hasPre ("==>".data) s then some 3
  else
    let d := (s.takeWhile (fun c => c = '-')).length
    if 3 ≤ d ∧ hasPre (">".data) (s.drop d) then some (d + 1) else none

/-- `re.split(r'(?:-->|-\.->|==>|---+>)', s)`: split at every leftmost
connector occurrence.  Each step consumes at least one character. -/
def splitConnAux : Nat → Str → Str → List Str
  | _, acc, [] => [acc.reverse]
  | 0, acc, s => [acc.reverse ++ s]
  | fuel + 1, acc, s@(c :: rest) =>
    match connAt s with
    | some k => acc.reverse :: splitConnAux fuel [] (s.drop k)
    | none => splitConnAux fuel (c :: acc) rest

/-- The chained-target split of `_parse_edge_statement`. -/
def splitConn (s : Str) : List Str := splitConnAux s.length [] s

/-- One entry of `EDGE_PATTERNS`: a labeled pattern (opening delimiter,
closing delimiter, excluded middle character) or a literal pattern, with
its edge type (the type is accepted and then discarded by `_create_edge`,
which stores no type on `PlaybookEdge`). -/
inductive EdgePat
  | lab (opn close : Str) (bad : Char) (ty : Str)
  | lit (pat : Str) (ty : Str)

/-- `EDGE_PATTERNS` in source order. -/
def EDGE_PATTERNS : List EdgePat :=
  [.lab ("--".data) ("-->".data) '-' ("solid".data),
   .lab ("-.".data) (".->".data) '-' ("dotted".data),
   .lab ("==".data) ("==>".data) '=' ("bold".data),
   .lit ("-->".data) ("solid".data),
   .lit ("-.->".data) ("dotted".data),
   .lit ("==>".data) ("bold".data),
   .lit ("--->".data) ("solid".data),
   .lit ("---->".data) ("solid".data)]

/-- `re.search(edge_pattern, line)` viewed as a Boolean. -/
def epSearch (p : EdgePat) (line : Str) : Bool :=
  match p with
  | .lab o c b _ => (findLab o c b line).isSome
  | .lit pat _ => hasSub pat line

/-- `re.split(edge_pattern, line)`. -/
def epSplit (p : EdgePat) (line : Str) : List Str :=
  match p with
  | .lab o c b _ => splitLab o c b line
  | .lit pat _ => splitLit pat line

/-- `'(' in edge_pattern`: exactly the labeled patterns contain `(`. -/
def epHasGroup : EdgePat → Bool
  | .lab _ _ _ _ => true
  | .lit _ _ => false

/-- The mutable fields of a `MermaidParser` instance.  `node_id_map` keys
are `Option Str` because `_parse_edge_statement` inserts `source_id` into
the map before constructing the node, and `source_id` may be `None`. -/
structure MmState where
  nodes : List PlaybookNode
  edges : List PlaybookEdge
  nodeCounter : Nat
  edgeCounter : Nat
  nodeIdMap : List (Option Str × Str)
  subgraphStack : List (Str × Str)
  currentSubgraph : Option Str
deriving DecidableEq

/-- The state set up by `__init__` and by the reset at the top of `parse`. -/
def initState : MmState :=
  { nodes := [], edges := [], nodeCounter := 0, edgeCounter := 0,
    nodeIdMap := [], subgraphStack := [], currentSubgraph := none }

/-- Python dict lookup on `node_id_map`. -/
def mapFind (m : List (Option Str × Str)) (k : Option Str) : Option Str :=
  match m with
  | [] => none
  | (k', v) :: rest => if k' = k then some v else mapFind rest k

/-- Python `k in node_id_map`. -/
def mapHas (m : List (Option Str × Str)) (k : Option Str) : Bool :=
  (mapFind m k).isSome

/-- Python `a or b` on optional strings (`None` and `''` are falsy). -/
def pyOrOpt (a b : Option Str) : Option Str :=
  match a with
  | some s => if s = [] then b else some s
  | none => b

/-- `node_type or "step"` (types produced by the shape table are nonempty,
but the falsiness of `''` is kept for fidelity). -/
def tyOr (a : Option Str) : Str :=
  match a with
  | some t => if t = [] then ("step".data) else t
  | none => ("step".data)

/-- A `Dict[str, Any]` value that may be `None`. -/
def optSVal : Option Str → MVal
  | some s => .s s
  | none => .nil

/-- `MermaidParser._create_edge` (the `edge_type` argument is discarded by
the source: `PlaybookEdge` has no type field). -/
def MmState.addEdge (st : MmState) (src tgt : Str) (lab : Option Str) : MmState :=
  { st with edges := st.edges ++ [⟨edgeIdStr st.edgeCounter, src, tgt, lab⟩],
            edgeCounter := st.edgeCounter + 1 }

/-- The get-or-create block of `_parse_edge_statement` (used for both the
source and the target): when the literal id is new, `_create_node_id` is
called, the map is extended, and `PlaybookNode(...)` is constructed with
`label=<shape label> or <literal id>`.  When both are `None`, pydantic
rejects `label=None` (`label : str` is required) and `parse` raises — the
returned flag is `false` in that case. -/
def getOrCreateNode (st : MmState) (mid mlab mty : Option Str) : MmState × Bool :=
  if mapHas st.nodeIdMap mid then (st, true)
  else
    let internal := nodeIdStr st.nodeCounter
    let st1 := { st with nodeCounter := st.nodeCounter + 1,
                         nodeIdMap := st.nodeIdMap ++ [(mid, internal)] }
    match pyOrOpt mlab mid with
    | none => (st1, false)
    | some lab =>
      ({ st1 with nodes := st1.nodes ++
          [⟨internal, lab, tyOr mty,
            [(("mermaid_id".data), optSVal mid),
             (("subgraph".data), optSVal st.currentSubgraph)]⟩] },
       true)

/-- The per-target body of the target loop of `_parse_edge_statement`. -/
def processTarget (st : MmState) (srcMid : Option Str) (elb : Option Str)
    (tpRaw : Str) : MmState × Bool :=
  if pyStrip tpRaw = [] then (st, true)
  else
    let e := extractNodeInfo (pyStrip tpRaw)
    let g := getOrCreateNode st e.1 e.2.1 e.2.2
    if g.2 then
      match mapFind g.1.nodeIdMap srcMid, mapFind g.1.nodeIdMap e.1 with
      | some si, some ti => (g.1.addEdge si ti elb, true)
      | _, _ => (g.1, false)
    else (g.1, false)

/-- The target loop of `_parse_edge_statement`; a raised exception aborts
the remaining targets. -/
def processTargets (srcMid elb : Option Str) : List Str → MmState → MmState × Bool
  | [], st => (st, true)
  | tp :: rest, st =>
    if (processTarget st srcMid elb tp).2 then
      processTargets srcMid elb rest (processTarget st srcMid elb tp).1
    else ((processTarget st srcMid elb tp).1, false)

/-- `_parse_edge_statement`. -/
def parseEdgeStatement (st : MmState) (parts : List Str) (hasGroup : Bool) :
    MmState × Bool :=
  if parts.length < 2 then (st, true)
  else
    let e := extractNodeInfo (pyStrip (parts.headD []))
    let g := getOrCreateNode st e.1 e.2.1 e.2.2
    if g.2 then
      let lt : Option Str × Nat :=
        if hasGroup ∧ 2 < parts.length then
          ((some (pyStrip (parts.getD 1 []))), 2)
        else (none, 1)
      processTargets e.1 lt.1
        (splitConn (if lt.2 < parts.length then parts.getD lt.2 [] else [])) g.1
    else (g.1, false)

/-- `_parse_node_definition`: create a node only when the fragment yields a
literal id that is not yet mapped (this path never raises: the label falls
back to the nonempty literal id). -/
def parseNodeDefinition (st : MmState) (line : Str) : MmState :=
  match extractNodeInfo line with
  | (some m, lab, ty) => (getOrCreateNode st (some m) lab ty).1
  | (none, _, _) => st

/-- The `re.search` loop of `_parse_statement`. -/
def findEdgePattern (line : Str) : List EdgePat → Option EdgePat
  | [] => none
  | p :: rest => if epSearch p line then some p else findEdgePattern line rest

/-- `_parse_statement`. -/
def parseStatement (st : MmState) (line : Str) : MmState × Bool :=
  match findEdgePattern line EDGE_PATTERNS with
  | some p => parseEdgeStatement st (epSplit p line) (epHasGroup p)
  | none => (parseNodeDefinition st line, true)

/-- Group of `re.match(r'subgraph\s+(.+)', line)` stripped; `none` when the
match fails.  When everything after the whitespace run is empty, `\s+`
backtracks one character for `(.+)` (possible only when the run has length
at least two) and the stripped group is empty. -/
def subgraphLabel (line : Str) : Option Str :=
  let t := line.drop 8
  let w := t.takeWhile isPyWs
  let r := t.drop w.length
  if w = [] then none
  else if r = [] ∧ w.length = 1 then none
  else some (pyStrip r)

/-- `_parse_subgraph_start`. -/
def parseSubgraphStart (st : MmState) (line : Str) : MmState :=
  match subgraphLabel line with
  | none => st
  | some label =>
    let nid := nodeIdStr st.nodeCounter
    let node : PlaybookNode :=
      ⟨nid, label, ("phase".data),
       [(("is_subgraph".data), .b true),
        (("level".data), .n (st.subgraphStack.length + 1))]⟩
    { st with nodeCounter := st.nodeCounter + 1,
              nodes := st.nodes ++ [node],
              subgraphStack := st.subgraphStack ++ [(nid, label)],
              currentSubgraph := some nid }

/-- `_parse_subgraph_end`. -/
def parseSubgraphEnd (st : MmState) : MmState :=
  match st.subgraphStack.getLast? with
  | none => st
  | some _ =>
    let stack := st.subgraphStack.dropLast
    { st with subgraphStack := stack,
              currentSubgraph := (stack.getLast?).map Prod.fst }

/-- The skip-to-declaration loop at the top of `parse`: drop everything up
to and including the first line whose stripped form starts with
`flowchart` or `graph`; with no such line the whole input is dropped. -/
def skipToDecl : List Str → List Str
  | [] => []
  | line :: rest =>
    if hasPre ("flowchart".data) (pyStrip line) ||
       hasPre ("graph".data) (pyStrip line) then rest
    else skipToDecl rest

/-- The main line loop of `parse`; the Boolean is `false` when the Python
code raises (pydantic `ValidationError` on a node with no label), which
aborts the remaining lines. -/
def mmLoop : List Str → MmState → MmState × Bool
  | [], st => (st, true)
  | line :: rest, st =>
    if pyStrip line = [] || hasPre ("%%".data) (pyStrip line) then mmLoop rest st
    else if hasPre ("subgraph".data) (pyStrip line) then
      mmLoop rest (parseSubgraphStart st (pyStrip line))
    else if pyStrip line = ("end".data) then mmLoop rest (parseSubgraphEnd st)
    else
      if (parseStatement st (pyStrip line)).2 then
        mmLoop rest (parseStatement st (pyStrip line)).1
      else ((parseStatement st (pyStrip line)).1, false)

/-- `MermaidParser.parse`, with the final instance state and the
raised/normal flag. -/
def parseE (content : Str) : MmState × Bool :=
  mmLoop (skipToDecl (splitOnNl content)) initState

/-- `MermaidParser.parse`: `some` graph on normal return, `none` when the
Python code raises. -/
def parse (content : Str) : Option PlaybookGraph :=
  match parseE content with
  | (st, true) => some ⟨st.nodes, st.edges⟩
  | (_, false) => none

/-- `parse` as a method of an instance: the reset at the top makes the
prior instance state irrelevant. -/
def parseInst (_inst : MmState) (content : Str) : Option PlaybookGraph × MmState :=
  match parseE content with
  | (st, ok) => (if ok then some ⟨st.nodes, st.edges⟩ else none, st)

end MermaidParser

/-! ## Format Selector (`detect_format` in `api/routers/parse.py`) -/

/-- The direction alternatives `(TD|LR|TB|RL|BT)`, lowered. -/
def mermaidDirs : List Str :=
  [("td".data), ("lr".data), ("tb".data), ("rl".data), ("bt".data)]

/-- `\s+(TD|LR|TB|RL|BT)` at the start of `t` (already lowered): a nonempty
whitespace run followed by one of the direction tokens.  The run is
forced-maximal because every direction token starts with a letter. -/
def wsThenDir (t : Str) : Bool :=
  let w := t.takeWhile isPyWs
  w ≠ [] && mermaidDirs.any (fun d => hasPre d (t.drop w.length))

/-- `detect_format` of `api/routers/parse.py`: `re.match` with
`re.IGNORECASE` is modelled by comparing the ASCII-lowered text against the
lowered patterns. -/
def detect_format (content : Str) : Str :=
  if hasPre ("flowchart".data) (lowerStr (pyStrip content)) &&
     wsThenDir ((lowerStr (pyStrip content)).drop 9) then ("mermaid".data)
  else if hasPre ("graph".data) (lowerStr (pyStrip content)) &&
     wsThenDir ((lowerStr (pyStrip content)).drop 5) then ("mermaid".data)
  else ("markdown".data)

/-! ## Injectivity of the id numbering -/

theorem digVal_digCh : ∀ n, n < 10 → digVal (digCh n) = n := by decide

theorem digsVal_append_single (xs : Str) (c : Char) :
    digsVal (xs ++ [c]) = digsVal xs * 10 + digVal c := by
  simp [digsVal, List.foldl_append]

theorem digsVal_natToDigsAux :
    ∀ fuel n, n < fuel → digsVal (natToDigsAux fuel n) = n := by
  intro fuel
  induction fuel with
  | zero => omega
  | succ f ih =>
    intro n hn
    by_cases h10 : n < 10
    · simp [natToDigsAux, h10, digsVal, digVal_digCh n h10]
    · have h0 : 0 < n := by omega
      have hdiv : n / 10 < n := Nat.div_lt_self h0 (by omega)
      have : digsVal (natToDigsAux f (n / 10)) = n / 10 := ih _ (by omega)
      simp only [natToDigsAux, if_neg h10, digsVal_append_single, this]
      have hmod : n % 10 < 10 := Nat.mod_lt _ (by omega)
      rw [digVal_digCh _ hmod]
      omega

theorem digsVal_natToDigs (n : Nat) : digsVal (natToDigs n) = n :=
  digsVal_natToDigsAux (n + 1) n (Nat.lt_succ_self n)

theorem natToDigs_inj : Function.Injective natToDigs := by
  intro a b h
  have := congrArg digsVal h
  rwa [digsVal_natToDigs, digsVal_natToDigs] at this

theorem nodeIdStr_inj : Function.Injective nodeIdStr := by
  intro a b h
  exact natToDigs_inj (List.append_cancel_left h)

theorem edgeIdStr_inj : Function.Injective edgeIdStr := by
  intro a b h
  exact natToDigs_inj (List.append_cancel_left h)

theorem nodup_range_map_nodeIdStr (n : Nat) :
    (((List.range n).map nodeIdStr)).Nodup :=
  (List.nodup_range n).map nodeIdStr_inj

theorem nodup_range_map_edgeIdStr (n : Nat) :
    (((List.range n).map edgeIdStr)).Nodup :=
  (List.nodup_range n).map edgeIdStr_inj

/-! ## Invariants of the Outline Converter -/

namespace MarkdownParser

/-- The node/edge id lists follow the two counters exactly. -/
def idsOk (st : MdState) : Prop :=
  nodeIds st.nodes = (List.range st.nodeCounter).map nodeIdStr ∧
  edgeIds st.edges = (List.range st.edgeCounter).map edgeIdStr

/-- Every edge endpoint and the `last_node_id` cursor name existing nodes. -/
def refOk (st : MdState) : Prop :=
  (∀ e ∈ st.edges, e.source ∈ nodeIds st.nodes ∧ e.target ∈ nodeIds st.nodes) ∧
  (∀ l, st.lastNodeId = some l → l ∈ nodeIds st.nodes)

/-- The state invariant maintained by every parsing step. -/
def MdInv (st : MdState) : Prop := idsOk st ∧ refOk st

theorem MdInv_initState : MdInv initState := by
  refine ⟨⟨by simp [initState, nodeIds], by simp [initState, edgeIds]⟩, ?_, ?_⟩
  · intro e he; simp [initState] at he
  · intro l hl; simp [initState] at hl

theorem addNode_snd_nodes (st : MdState) (l t : Str) (m : Metadata) :
    (st.addNode l t m).2.nodes = st.nodes ++ [⟨nodeIdStr st.nodeCounter, l, t, m⟩] := rfl

theorem addNode_inv {st : MdState} (h : MdInv st) (l t : Str) (m : Metadata) :
    MdInv (st.addNode l t m).2 ∧
    (st.addNode l t m).1 ∈ nodeIds (st.addNode l t m).2.nodes ∧
    nodeIds (st.addNode l t m).2.nodes = nodeIds st.nodes ++ [(st.addNode l t m).1] := by
  obtain ⟨⟨hn, he⟩, hr, hl⟩ := h
  have hids : nodeIds (st.addNode l t m).2.nodes
      = nodeIds st.nodes ++ [nodeIdStr st.nodeCounter] := by
    simp [MdState.addNode, nodeIds]
  refine ⟨⟨⟨?_, ?_⟩, ?_, ?_⟩, ?_, ?_⟩
  · rw [hids, hn]
    simp [MdState.addNode, List.range_succ]
  · exact he
  · intro e hee
    have := hr e hee
    rw [hids]
    exact ⟨List.mem_append_left _ this.1, List.mem_append_left _ this.2⟩
  · intro x hx
    rw [hids]
    exact List.mem_append_left _ (hl x hx)
  · rw [hids]
    exact List.mem_append_right _ (by simp [MdState.addNode])
  · rw [hids]; rfl

theorem addEdge_inv {st : MdState} (h : MdInv st) {src tgt : Str}
    (hs : src ∈ nodeIds st.nodes) (ht : tgt ∈ nodeIds st.nodes) (lab : Option Str) :
    MdInv (st.addEdge src tgt lab) ∧ (st.addEdge src tgt lab).nodes = st.nodes := by
  obtain ⟨⟨hn, he⟩, hr, hl⟩ := h
  refine ⟨⟨⟨hn, ?_⟩, ?_, hl⟩, rfl⟩
  · show edgeIds (st.edges ++ [_]) = _
    rw [edgeIds, List.map_append, ← edgeIds, he]
    simp [MdState.addEdge, List.range_succ]
  · intro e hee
    rcases List.mem_append.mp hee with hin | hone
    · exact hr e hin
    · rcases List.mem_singleton.mp hone with rfl
      exact ⟨hs, ht⟩

theorem connectLast_inv {st : MdState} (h : MdInv st) {tgt : Str}
    (ht : tgt ∈ nodeIds st.nodes) :
    MdInv (st.connectLast tgt) ∧ (st.connectLast tgt).nodes = st.nodes ∧
    (st.connectLast tgt).lastNodeId = st.lastNodeId := by
  unfold MdState.connectLast
  cases hcase : st.lastNodeId with
  | none => exact ⟨h, rfl, hcase⟩
  | some l0 =>
    have hmem := h.2.2 l0 hcase
    have := addEdge_inv h hmem ht none
    exact ⟨this.1, this.2, hcase⟩

/-- Setting the cursor to an existing node (and the phase stack to
anything) preserves the invariant. -/
theorem setLast_inv {st : MdState} (h : MdInv st) {nid : Str}
    (hn : nid ∈ nodeIds st.nodes) (ps : List Str) :
    MdInv { st with lastNodeId := some nid, phaseStack := ps } := by
  obtain ⟨hids, hr, _⟩ := h
  refine ⟨hids, hr, ?_⟩
  intro x hx
  cases hx
  exact hn

/-- The common create-node / connect-from-cursor / advance-cursor step. -/
theorem createConnected_inv {st : MdState} (h : MdInv st) (l t : Str)
    (m : Metadata) (ps : List Str) :
    MdInv { (st.addNode l t m).2.connectLast (st.addNode l t m).1 with
            lastNodeId := some (st.addNode l t m).1, phaseStack := ps } := by
  have ha := addNode_inv h l t m
  have hc := connectLast_inv ha.1 ha.2.1
  refine setLast_inv hc.1 ?_ ps
  rw [hc.2.1]
  exact ha.2.1

theorem parseHeader_inv {st : MdState} (h : MdInv st) (s : Str) :
    MdInv (parseHeader st s) :=
  createConnected_inv h _ _ _ _

theorem parseNumbered_inv {st : MdState} (h : MdInv st) (s : Str) :
    MdInv (parseNumbered st s) := by
  unfold parseNumbered
  cases numTail (s.drop ((s.takeWhile Char.isDigit).length + 1)) with
  | none => exact h
  | some g => exact createConnected_inv h _ _ _ _

theorem mergeStep_inv {st2 : MdState} (h : MdInv st2) {m : Option Str}
    (hm : ∀ x, m = some x → x ∈ nodeIds st2.nodes) (total : Nat) :
    MdInv (mergeStep st2 m total).1 ∧
    (∀ x, x ∈ nodeIds st2.nodes → x ∈ nodeIds (mergeStep st2 m total).1.nodes) ∧
    (∀ x, (mergeStep st2 m total).2 = some x →
      x ∈ nodeIds (mergeStep st2 m total).1.nodes) := by
  unfold mergeStep
  split
  · have h3 := addNode_inv h ("Continue".data) ("merge".data)
        [(("merge_type".data), .s ("decision".data))]
    refine ⟨h3.1, ?_, ?_⟩
    · intro x hx
      rw [h3.2.2]
      exact List.mem_append_left _ hx
    · intro x hx
      cases hx
      exact h3.2.1
  · exact ⟨h, fun x hx => hx, hm⟩

theorem branchMergeEdge_inv {q : MdState × Option Str} (h : MdInv q.1)
    {bid : Str} (hb : bid ∈ nodeIds q.1.nodes)
    (hq : ∀ x, q.2 = some x → x ∈ nodeIds q.1.nodes) :
    MdInv (branchMergeEdge q bid) ∧ (branchMergeEdge q bid).nodes = q.1.nodes := by
  unfold branchMergeEdge
  cases hcase : q.2 with
  | none => exact ⟨h, rfl⟩
  | some mid => exact addEdge_inv h hb (hq mid hcase) none

theorem processBranches_inv (dId : Str) (he : Bool) (total : Nat) :
    ∀ (bs : List Str) (first : Bool) (st : MdState) (m : Option Str),
      MdInv st → dId ∈ nodeIds st.nodes →
      (∀ x, m = some x → x ∈ nodeIds st.nodes) →
      MdInv (processBranches dId he total bs first st m).1 ∧
      dId ∈ nodeIds (processBranches dId he total bs first st m).1.nodes ∧
      (∀ x, (processBranches dId he total bs first st m).2 = some x →
        x ∈ nodeIds (processBranches dId he total bs first st m).1.nodes) := by
  intro bs
  induction bs with
  | nil =>
    intro first st m h hd hm
    exact ⟨h, hd, hm⟩
  | cons bc rest ih =>
    intro first st m h hd hm
    rw [processBranches]
    have h1 := addNode_inv h bc ("step".data)
        [(("branch".data), .s (if he then ("no".data)
                               else if first then ("yes".data) else ("no".data)))]
    have hd1 : dId ∈ nodeIds (st.addNode bc ("step".data)
        [(("branch".data), .s (if he then ("no".data)
                               else if first then ("yes".data) else ("no".data)))]).2.nodes := by
      rw [h1.2.2]; exact List.mem_append_left _ hd
    have hm1 : ∀ x, m = some x → x ∈ nodeIds (st.addNode bc ("step".data)
        [(("branch".data), .s (if he then ("no".data)
                               else if first then ("yes".data) else ("no".data)))]).2.nodes := by
      intro x hx
      rw [h1.2.2]; exact List.mem_append_left _ (hm x hx)
    have h2 := addEdge_inv h1.1 hd1 h1.2.1
        (some (if he then ("no".data) else if first then ("yes".data) else ("no".data)))
    have hd2 := h2.2 ▸ hd1
    have hb2 := h2.2 ▸ h1.2.1
    have hm2 : ∀ x, m = some x → _ := fun x hx => h2.2 ▸ hm1 x hx
    have h3 := mergeStep_inv h2.1 hm2 total
    have h4 := branchMergeEdge_inv h3.1 (h3.2.1 _ hb2) h3.2.2
    refine ih false _ _ h4.1 ?_ ?_
    · rw [h4.2]
      exact h3.2.1 _ hd2
    · intro x hx
      rw [h4.2]
      exact h3.2.2 x hx

theorem parseDecision_inv {st : MdState} (h : MdInv st) (content : Str)
    (rest : List Str) : MdInv (parseDecision st content rest).1 := by
  have h1 := addNode_inv h (extractCondition content) ("decision".data)
      [(("condition".data), .s content)]
  have h2 := connectLast_inv h1.1 h1.2.1
  have hd2 : (st.addNode (extractCondition content) ("decision".data)
      [(("condition".data), .s content)]).1 ∈
      nodeIds ((st.addNode (extractCondition content) ("decision".data)
        [(("condition".data), .s content)]).2.connectLast
        (st.addNode (extractCondition content) ("decision".data)
          [(("condition".data), .s content)]).1).nodes := by
    rw [h2.2.1]; exact h1.2.1
  have hp := processBranches_inv
      (st.addNode (extractCondition content) ("decision".data)
        [(("condition".data), .s content)]).1
      (hasSub ("else".data) (lowerStr content) ||
        hasSub ("otherwise".data) (lowerStr content))
      ((rest.takeWhile isBranchLine).map (fun l => pyStrip ((pyStrip l).drop 1))).length
      ((rest.takeWhile isBranchLine).map (fun l => pyStrip ((pyStrip l).drop 1)))
      true _ none h2.1 hd2 (fun x hx => nomatch hx)
  refine setLast_inv hp.1 ?_ _
  cases hq : (processBranches _ _ _ _ true _ none).2 with
  | none => exact hp.2.1
  | some x => exact hp.2.2 x hq

theorem parseBullet_inv {st : MdState} (h : MdInv st) (s : Str)
    (rest : List Str) : MdInv (parseBullet st s rest).1 := by
  simp only [parseBullet]
  split
  · exact parseDecision_inv h _ _
  · exact createConnected_inv h _ _ _ _

theorem parseCode_inv {st : MdState} (h : MdInv st) (s : Str)
    (rest : List Str) : MdInv (parseCode st s rest).1 := by
  simp only [parseCode]
  exact createConnected_inv h _ _ _ _

theorem mdLoop_inv : ∀ (fuel : Nat) (lines : List Str) (st : MdState),
    MdInv st → MdInv (mdLoop fuel lines st) := by
  intro fuel
  induction fuel with
  | zero =>
    intro lines st h
    cases lines <;> exact h
  | succ f ih =>
    intro lines st h
    cases lines with
    | nil => exact h
    | cons line rest =>
      rw [mdLoop]
      split
      · exact ih rest st h
      · split
        · exact ih _ _ (parseHeader_inv h _)
        · split
          · exact ih _ _ (parseNumbered_inv h _)
          · split
            · exact ih _ _ (parseBullet_inv h _ _)
            · split
              · exact ih _ _ (parseCode_inv h _ _)
              · exact ih rest st h

/-- The invariant holds for the final state of every markdown parse. -/
theorem parse_state_inv (content : Str) :
    MdInv (mdLoop (splitOnNl content).length (splitOnNl content) initState) :=
  mdLoop_inv _ _ _ MdInv_initState

end MarkdownParser

/-! ## Invariants of the Diagram Converter -/

namespace MermaidParser

/-- Ordered-dict lookup in node metadata. -/
def mdLookup (md : Metadata) (k : Str) : Option MVal :=
  match md with
  | [] => none
  | (k1, v) :: rest => if k1 = k then some v else mdLookup rest k

/-- The `mermaid_id` metadata entry of a node, when present and a string. -/
def midOf (n : PlaybookNode) : Option Str :=
  match mdLookup n.metadata ("mermaid_id".data) with
  | some (.s v) => some v
  | _ => none

/-- Number of nodes tagged with the literal identifier `lit`. -/
def countMid (ns : List PlaybookNode) (lit : Str) : Nat :=
  (ns.filter (fun n => midOf n = some lit)).length

/-- The node types the diagram converter can emit. -/
def typeOk (n : PlaybookNode) : Prop :=
  n.type = ("step".data) ∨ n.type = ("decision".data) ∨ n.type = ("phase".data)

/-- The state invariant maintained by every statement of a mermaid parse:
ids follow the counters, every mapped internal id and every edge endpoint
is an existing node id, node types stay in range, and each mapped literal
identifier tags exactly one node. -/
def MmInv (st : MmState) : Prop :=
  nodeIds st.nodes = (List.range st.nodeCounter).map nodeIdStr ∧
  edgeIds st.edges = (List.range st.edgeCounter).map edgeIdStr ∧
  (∀ kv ∈ st.nodeIdMap, kv.2 ∈ nodeIds st.nodes) ∧
  (∀ e ∈ st.edges, e.source ∈ nodeIds st.nodes ∧ e.target ∈ nodeIds st.nodes) ∧
  (∀ n ∈ st.nodes, typeOk n) ∧
  (∀ lit : Str, countMid st.nodes lit =
    if mapHas st.nodeIdMap (some lit) then 1 else 0)

theorem MmInv_initState : MmInv initState := by
  refine ⟨by simp [initState, nodeIds], by simp [initState, edgeIds],
    ?_, ?_, ?_, ?_⟩
  · intro kv hkv; simp [initState] at hkv
  · intro e he; simp [initState] at he
  · intro n hn; simp [initState] at hn
  · intro lit; simp [initState, countMid, mapHas, mapFind]

theorem mapFind_mem {m : List (Option Str × Str)} {k : Option Str} {v : Str}
    (h : mapFind m k = some v) : (k, v) ∈ m := by
  induction m with
  | nil => simp [mapFind] at h
  | cons kv rest ih =>
    obtain ⟨k1, v1⟩ := kv
    by_cases hk : k1 = k
    · rw [mapFind, if_pos hk] at h
      cases h
      subst hk
      exact List.mem_cons_self _ _
    · rw [mapFind, if_neg hk] at h
      exact List.mem_cons_of_mem _ (ih h)

theorem mapFind_append (m : List (Option Str × Str)) (k : Option Str)
    (v : Str) (k' : Option Str) :
    mapFind (m ++ [(k, v)]) k' =
      match mapFind m k' with
      | some x => some x
      | none => if k = k' then some v else none := by
  induction m with
  | nil => simp [mapFind]
  | cons kv rest ih =>
    obtain ⟨k1, v1⟩ := kv
    by_cases hk : k1 = k' <;> simp [mapFind, hk, ih]

theorem countMid_append (ns ms : List PlaybookNode) (lit : Str) :
    countMid (ns ++ ms) lit = countMid ns lit + countMid ms lit := by
  simp [countMid, List.filter_append]

theorem countMid_single (n : PlaybookNode) (lit : Str) :
    countMid [n] lit = if midOf n = some lit then 1 else 0 := by
  by_cases h : midOf n = some lit <;> simp [countMid, h]

theorem midOf_mk (idv lab ty : Str) (mid : Option Str) (sg : MVal) :
    midOf ⟨idv, lab, ty,
      [(("mermaid_id".data), optSVal mid), (("subgraph".data), sg)]⟩ = mid := by
  cases mid <;> rfl

theorem midOf_subgraphNode (idv lab : Str) (lvl : Nat) :
    midOf ⟨idv, lab, ("phase".data),
      [(("is_subgraph".data), .b true), (("level".data), .n lvl)]⟩ = none := by
  rfl

theorem addEdge_ok {st : MmState} (h : MmInv st) {src tgt : Str}
    (hs : src ∈ nodeIds st.nodes) (ht : tgt ∈ nodeIds st.nodes)
    (lab : Option Str) :
    MmInv (st.addEdge src tgt lab) ∧ (st.addEdge src tgt lab).nodes = st.nodes ∧
    (st.addEdge src tgt lab).nodeIdMap = st.nodeIdMap := by
  obtain ⟨h1, h2, h3, h4, h5, h6⟩ := h
  refine ⟨⟨h1, ?_, h3, ?_, h5, h6⟩, rfl, rfl⟩
  · show edgeIds (st.edges ++ [_]) = _
    rw [edgeIds, List.map_append, ← edgeIds, h2]
    simp [MmState.addEdge, List.range_succ]
  · intro e he
    rcases List.mem_append.mp he with hin | hone
    · exact h4 e hin
    · rcases List.mem_singleton.mp hone with rfl
      exact ⟨hs, ht⟩

theorem parseSubgraphStart_inv {st : MmState} (h : MmInv st) (line : Str) :
    MmInv (parseSubgraphStart st line) := by
  unfold parseSubgraphStart
  cases hsl : subgraphLabel line with
  | none => exact h
  | some label =>
    obtain ⟨h1, h2, h3, h4, h5, h6⟩ := h
    have hids : nodeIds (st.nodes ++
        [⟨nodeIdStr st.nodeCounter, label, ("phase".data),
          [(("is_subgraph".data), .b true),
           (("level".data), .n (st.subgraphStack.length + 1))]⟩])
        = nodeIds st.nodes ++ [nodeIdStr st.nodeCounter] := by
      simp [nodeIds]
    refine ⟨?_, h2, ?_, ?_, ?_, ?_⟩
    · rw [hids, h1]
      simp [List.range_succ]
    · intro kv hkv
      rw [hids]
      exact List.mem_append_left _ (h3 kv hkv)
    · intro e he
      rw [hids]
      have := h4 e he
      exact ⟨List.mem_append_left _ this.1, List.mem_append_left _ this.2⟩
    · intro n hn
      rcases List.mem_append.mp hn with hin | hone
      · exact h5 n hin
      · rcases List.mem_singleton.mp hone with rfl
        right; right; rfl
    · intro lit
      rw [countMid_append, countMid_single, midOf_subgraphNode]
      simp [h6 lit]

theorem parseSubgraphEnd_inv {st : MmState} (h : MmInv st) :
    MmInv (parseSubgraphEnd st) := by
  unfold parseSubgraphEnd
  cases st.subgraphStack.getLast? with
  | none => exact h
  | some _ => exact h

end MermaidParser

namespace MermaidParser

theorem getOrCreateNode_ok {st : MmState} (h : MmInv st) {mid mlab mty : Option Str}
    (hty : mty = none ∨ mty = some ("step".data) ∨ mty = some ("decision".data) ∨
      mty = some ("phase".data)) :
    ∀ {st'}, getOrCreateNode st mid mlab mty = (st', true) →
      MmInv st' ∧
      (∀ x, x ∈ nodeIds st.nodes → x ∈ nodeIds st'.nodes) ∧
      mapHas st'.nodeIdMap mid = true ∧
      (∀ k v, mapFind st.nodeIdMap k = some v → mapFind st'.nodeIdMap k = some v) := by
  intro st' heq
  unfold getOrCreateNode at heq
  by_cases hhas : mapHas st.nodeIdMap mid = true
  · rw [if_pos hhas] at heq
    injection heq with h1 _
    subst h1
    exact ⟨h, fun x hx => hx, hhas, fun k v hv => hv⟩
  · rw [if_neg hhas] at heq
    have hfind : mapFind st.nodeIdMap mid = none :=
      Option.not_isSome_iff_eq_none.mp (by simpa [mapHas] using hhas)
    rcases hlab : pyOrOpt mlab mid with _ | lab
    · rw [hlab] at heq
      simp at heq
    · rw [hlab] at heq
      injection heq with h1 _
      subst h1
      obtain ⟨h1, h2, h3, h4, h5, h6⟩ := h
      have hids : nodeIds (st.nodes ++
          [⟨nodeIdStr st.nodeCounter, lab, tyOr mty,
            [(("mermaid_id".data), optSVal mid),
             (("subgraph".data), optSVal st.currentSubgraph)]⟩])
          = nodeIds st.nodes ++ [nodeIdStr st.nodeCounter] := by
        simp [nodeIds]
      refine ⟨⟨?_, h2, ?_, ?_, ?_, ?_⟩, ?_, ?_, ?_⟩
      · rw [hids, h1]
        simp [List.range_succ]
      · intro kv hkv
        rw [hids]
        rcases List.mem_append.mp hkv with hin | hone
        · exact List.mem_append_left _ (h3 kv hin)
        · rcases List.mem_singleton.mp hone with rfl
          exact List.mem_append_right _ (List.mem_singleton.mpr rfl)
      · intro e he
        rw [hids]
        have := h4 e he
        exact ⟨List.mem_append_left _ this.1, List.mem_append_left _ this.2⟩
      · intro n hn
        rcases List.mem_append.mp hn with hin | hone
        · exact h5 n hin
        · rcases List.mem_singleton.mp hone with rfl
          rcases hty with rfl | rfl | rfl | rfl
          · left; rfl
          · left; rfl
          · right; left; rfl
          · right; right; rfl
      · intro lit
        rw [show ({ st with
              nodeCounter := st.nodeCounter + 1,
              nodeIdMap := st.nodeIdMap ++ [(mid, nodeIdStr st.nodeCounter)],
              nodes := st.nodes ++
                [⟨nodeIdStr st.nodeCounter, lab, tyOr mty,
                  [(("mermaid_id".data), optSVal mid),
                   (("subgraph".data), optSVal st.currentSubgraph)]⟩] } : MmState).nodes
            = st.nodes ++
                [⟨nodeIdStr st.nodeCounter, lab, tyOr mty,
                  [(("mermaid_id".data), optSVal mid),
                   (("subgraph".data), optSVal st.currentSubgraph)]⟩] from rfl]
        rw [countMid_append, countMid_single, midOf_mk]
        have hm : mapHas (st.nodeIdMap ++ [(mid, nodeIdStr st.nodeCounter)]) (some lit)
            = (mapHas st.nodeIdMap (some lit) || decide (mid = some lit)) := by
          unfold mapHas
          rw [mapFind_append]
          cases hf : mapFind st.nodeIdMap (some lit)
          · by_cases hml : mid = some lit <;> simp [hml]
          · simp
        rw [hm]
        by_cases hml : mid = some lit
        · have hfalse : mapHas st.nodeIdMap (some lit) = false := by
            rw [← hml]
            simp [mapHas, hfind]
          simp [h6 lit, hfalse, hml]
        · simp [h6 lit, hml]
      · intro x hx
        rw [hids]
        exact List.mem_append_left _ hx
      · show mapHas (st.nodeIdMap ++ [(mid, nodeIdStr st.nodeCounter)]) mid = true
        unfold mapHas
        rw [mapFind_append, hfind]
        simp
      · intro k v hv
        show mapFind (st.nodeIdMap ++ [(mid, nodeIdStr st.nodeCounter)]) k = some v
        rw [mapFind_append, hv]

end MermaidParser

namespace MermaidParser

theorem tryShapes_type {t : Str} :
    ∀ (tab : List ((Str → Option (Str × Str)) × Str)) {i l ty : Str},
      tryShapes t tab = some (i, l, ty) → ∃ p ∈ tab, p.2 = ty := by
  intro tab
  induction tab with
  | nil => intro i l ty h; simp [tryShapes] at h
  | cons fty rest ih =>
    intro i l ty h
    obtain ⟨f, ty1⟩ := fty
    rw [tryShapes] at h
    rcases hft : f t with _ | ⟨i2, lab2⟩
    · rw [hft] at h
      obtain ⟨p, hp, hpe⟩ := ih h
      exact ⟨p, List.mem_cons_of_mem _ hp, hpe⟩
    · rw [hft] at h
      cases h
      exact ⟨(f, ty), List.mem_cons_self _ _, rfl⟩

theorem extractNodeInfo_type (text : Str) :
    (extractNodeInfo text).2.2 = none ∨
    (extractNodeInfo text).2.2 = some ("step".data) ∨
    (extractNodeInfo text).2.2 = some ("decision".data) ∨
    (extractNodeInfo text).2.2 = some ("phase".data) := by
  unfold extractNodeInfo
  cases hts : tryShapes (pyStrip text) shapeTable with
  | none =>
    split
    next heq2 => exact Option.noConfusion heq2
    next => split <;> (left; rfl)
  | some pr =>
    obtain ⟨i, l, ty⟩ := pr
    obtain ⟨p, hp, hpty⟩ := tryShapes_type _ hts
    subst hpty
    have hmem : p.2 = ("step".data) ∨ p.2 = ("decision".data) ∨
        p.2 = ("phase".data) := by
      simp only [shapeTable, List.mem_cons, List.not_mem_nil, or_false] at hp
      rcases hp with rfl | rfl | rfl | rfl | rfl | rfl <;> simp
    rcases hmem with hh | hh | hh
    · right; left; exact congrArg some hh
    · right; right; left; exact congrArg some hh
    · right; right; right; exact congrArg some hh

theorem pyOrOpt_some_ne_none (a : Option Str) (m : Str) :
    pyOrOpt a (some m) ≠ none := by
  intro hcon
  cases a with
  | none => simp [pyOrOpt] at hcon
  | some s =>
    by_cases hs : s = [] <;> simp [pyOrOpt, hs] at hcon

theorem getOrCreateNode_some_ok (st : MmState) (m : Str) (lab ty : Option Str) :
    (getOrCreateNode st (some m) lab ty).2 = true := by
  unfold getOrCreateNode
  split
  · rfl
  · rcases hl : pyOrOpt lab (some m) with _ | l
    · exact absurd hl (pyOrOpt_some_ne_none lab m)
    · rfl

theorem parseNodeDefinition_ok {st : MmState} (h : MmInv st) (line : Str) :
    MmInv (parseNodeDefinition st line) := by
  unfold parseNodeDefinition
  rcases hext : extractNodeInfo line with ⟨nid, lab, ty⟩
  cases nid with
  | none => exact h
  | some m =>
    have hty := extractNodeInfo_type line
    rw [hext] at hty
    simp only at hty
    have hflag := getOrCreateNode_some_ok st m lab ty
    have hpair : getOrCreateNode st (some m) lab ty
        = ((getOrCreateNode st (some m) lab ty).1, true) := by
      rw [← hflag]
    exact (getOrCreateNode_ok h hty hpair).1

theorem processTarget_ok {st : MmState} (h : MmInv st) (srcMid elb : Option Str)
    (tp : Str) :
    ∀ {st'}, processTarget st srcMid elb tp = (st', true) → MmInv st' := by
  intro st' heq
  unfold processTarget at heq
  by_cases hemp : pyStrip tp = []
  · rw [if_pos hemp] at heq
    injection heq with h1 _
    subst h1
    exact h
  · rw [if_neg hemp] at heq
    simp only [] at heq
    by_cases hg : (getOrCreateNode st (extractNodeInfo (pyStrip tp)).1
        (extractNodeInfo (pyStrip tp)).2.1 (extractNodeInfo (pyStrip tp)).2.2).2 = true
    · rw [if_pos hg] at heq
      have hty := extractNodeInfo_type (pyStrip tp)
      have hgeq : getOrCreateNode st (extractNodeInfo (pyStrip tp)).1
          (extractNodeInfo (pyStrip tp)).2.1 (extractNodeInfo (pyStrip tp)).2.2
          = ((getOrCreateNode st (extractNodeInfo (pyStrip tp)).1
              (extractNodeInfo (pyStrip tp)).2.1
              (extractNodeInfo (pyStrip tp)).2.2).1, true) := by
        rw [← hg]
      have hG := getOrCreateNode_ok h hty hgeq
      rcases hsi : mapFind (getOrCreateNode st (extractNodeInfo (pyStrip tp)).1
          (extractNodeInfo (pyStrip tp)).2.1
          (extractNodeInfo (pyStrip tp)).2.2).1.nodeIdMap srcMid with _ | si
      · rw [hsi] at heq
        simp at heq
      · rw [hsi] at heq
        rcases hti : mapFind (getOrCreateNode st (extractNodeInfo (pyStrip tp)).1
            (extractNodeInfo (pyStrip tp)).2.1
            (extractNodeInfo (pyStrip tp)).2.2).1.nodeIdMap
            (extractNodeInfo (pyStrip tp)).1 with _ | ti
        · rw [hti] at heq
          simp at heq
        · rw [hti] at heq
          injection heq with h1 _
          subst h1
          have hsiv := hG.1.2.2.1 _ (mapFind_mem hsi)
          have htiv := hG.1.2.2.1 _ (mapFind_mem hti)
          exact (addEdge_ok hG.1 hsiv htiv elb).1
    · rw [if_neg hg] at heq
      simp at heq

theorem processTargets_ok (srcMid elb : Option Str) :
    ∀ (tps : List Str) {st st' : MmState}, MmInv st →
      processTargets srcMid elb tps st = (st', true) → MmInv st' := by
  intro tps
  induction tps with
  | nil =>
    intro st st' h heq
    rw [processTargets] at heq
    injection heq with h1 _
    subst h1
    exact h
  | cons tp rest ih =>
    intro st st' h heq
    rw [processTargets] at heq
    split at heq
    next hok =>
      have hpeq : processTarget st srcMid elb tp
          = ((processTarget st srcMid elb tp).1, true) := by rw [← hok]
      exact ih (processTarget_ok h srcMid elb tp hpeq) heq
    next hok => simp at heq

theorem parseEdgeStatement_ok {st : MmState} (h : MmInv st) (parts : List Str)
    (hasGroup : Bool) :
    ∀ {st'}, parseEdgeStatement st parts hasGroup = (st', true) → MmInv st' := by
  intro st' heq
  unfold parseEdgeStatement at heq
  by_cases hlen : parts.length < 2
  · rw [if_pos hlen] at heq
    injection heq with h1 _
    subst h1
    exact h
  · rw [if_neg hlen] at heq
    simp only [] at heq
    by_cases hg : (getOrCreateNode st (extractNodeInfo (pyStrip (parts.headD []))).1
        (extractNodeInfo (pyStrip (parts.headD []))).2.1
        (extractNodeInfo (pyStrip (parts.headD []))).2.2).2 = true
    · rw [if_pos hg] at heq
      have hty := extractNodeInfo_type (pyStrip (parts.headD []))
      have hgeq : getOrCreateNode st (extractNodeInfo (pyStrip (parts.headD []))).1
          (extractNodeInfo (pyStrip (parts.headD []))).2.1
          (extractNodeInfo (pyStrip (parts.headD []))).2.2
          = ((getOrCreateNode st (extractNodeInfo (pyStrip (parts.headD []))).1
              (extractNodeInfo (pyStrip (parts.headD []))).2.1
              (extractNodeInfo (pyStrip (parts.headD []))).2.2).1, true) := by
        rw [← hg]
      have hG := getOrCreateNode_ok h hty hgeq
      exact processTargets_ok _ _ _ hG.1 heq
    · rw [if_neg hg] at heq
      simp at heq

theorem parseStatement_ok {st : MmState} (h : MmInv st) (line : Str) :
    ∀ {st'}, parseStatement st line = (st', true) → MmInv st' := by
  intro st' heq
  unfold parseStatement at heq
  rcases hfp : findEdgePattern line EDGE_PATTERNS with _ | p
  · rw [hfp] at heq
    injection heq with h1 _
    subst h1
    exact parseNodeDefinition_ok h line
  · rw [hfp] at heq
    exact parseEdgeStatement_ok h _ _ heq

theorem mmLoop_ok : ∀ (lines : List Str) {st st' : MmState}, MmInv st →
    mmLoop lines st = (st', true) → MmInv st' := by
  intro lines
  induction lines with
  | nil =>
    intro st st' h heq
    rw [mmLoop] at heq
    injection heq with h1 _
    subst h1
    exact h
  | cons line rest ih =>
    intro st st' h heq
    rw [mmLoop] at heq
    split at heq
    · exact ih h heq
    · split at heq
      · exact ih (parseSubgraphStart_inv h _) heq
      · split at heq
        · exact ih (parseSubgraphEnd_inv h) heq
        · split at heq
          next hok =>
            have hpeq : parseStatement st (pyStrip line)
                = ((parseStatement st (pyStrip line)).1, true) := by rw [← hok]
            exact ih (parseStatement_ok h _ hpeq) heq
          next hok => simp at heq

/-- Every graph returned by a mermaid parse comes from a final state
satisfying the invariant. -/
theorem parse_ok {content : Str} {g : PlaybookGraph} (h : parse content = some g) :
    ∃ st, MmInv st ∧ g.nodes = st.nodes ∧ g.edges = st.edges := by
  unfold parse at h
  rcases hpe : parseE content with ⟨st, ok⟩
  rw [hpe] at h
  cases ok with
  | false => simp at h
  | true =>
    refine ⟨st, ?_, ?_, ?_⟩
    · unfold parseE at hpe
      exact mmLoop_ok _ MmInv_initState hpe
    · cases h; rfl
    · cases h; rfl

end MermaidParser

/-! ## The Format Selector against the specification's words -/

theorem hasPre_iff (p s : Str) : hasPre p s = true ↔ ∃ t, s = p ++ t := by
  induction p generalizing s with
  | nil => simp [hasPre]
  | cons c cs ih =>
    cases s with
    | nil => simp [hasPre]
    | cons x xs =>
      rw [hasPre]
      constructor
      · intro h
        simp only [Bool.and_eq_true] at h
        obtain ⟨hc, hrest⟩ := h
        obtain ⟨t, ht⟩ := (ih xs).mp hrest
        exact ⟨t, by simp [ht, (decide_eq_true_iff).mp hc]⟩
      · rintro ⟨t, ht⟩
        injection ht with h1 h2
        subst h1
        simp only [Bool.and_eq_true]
        exact ⟨by simp, (ih xs).mpr ⟨t, h2⟩⟩

theorem takeWhile_append_drop_self (p : Char → Bool) (l : Str) :
    l.takeWhile p ++ l.drop (l.takeWhile p).length = l := by
  induction l with
  | nil => rfl
  | cons c cs ih =>
    by_cases h : p c = true <;> simp [List.takeWhile_cons, h, ih]

theorem takeWhile_append_all {p : Char → Bool} {w : Str} (t : Str)
    (hw : ∀ c ∈ w, p c = true) :
    (w ++ t).takeWhile p = w ++ t.takeWhile p := by
  induction w with
  | nil => rfl
  | cons c cs ih =>
    have hc := hw c (List.mem_cons_self _ _)
    simp only [List.cons_append, List.takeWhile_cons, hc, if_true]
    rw [ih (fun x hx => hw x (List.mem_cons_of_mem _ hx))]

theorem dir_takeWhile_ws {d : Str} (hd : d ∈ mermaidDirs) (r : Str) :
    (d ++ r).takeWhile isPyWs = [] := by
  simp only [mermaidDirs, List.mem_cons, List.not_mem_nil, or_false] at hd
  rcases hd with rfl | rfl | rfl | rfl | rfl <;> rfl

theorem wsThenDir_iff (t : Str) :
    wsThenDir t = true ↔
      ∃ (w d r : Str), t = w ++ (d ++ r) ∧ w ≠ [] ∧
        (∀ c ∈ w, isPyWs c = true) ∧ d ∈ mermaidDirs := by
  constructor
  · intro h
    simp only [wsThenDir, Bool.and_eq_true] at h
    obtain ⟨hne, hany⟩ := h
    obtain ⟨d, hd, hpre⟩ := List.any_eq_true.mp hany
    obtain ⟨r, hr⟩ := (hasPre_iff _ _).mp hpre
    refine ⟨t.takeWhile isPyWs, d, r, ?_, ?_, ?_, hd⟩
    · conv_lhs => rw [← takeWhile_append_drop_self isPyWs t]
      rw [hr]
    · simpa using hne
    · intro c hc
      exact List.mem_takeWhile_imp hc
  · rintro ⟨w, d, r, rfl, hw, hws, hd⟩
    have htw : ((w ++ (d ++ r)).takeWhile isPyWs) = w := by
      rw [takeWhile_append_all (d ++ r) hws, dir_takeWhile_ws hd r,
        List.append_nil]
    simp only [wsThenDir, Bool.and_eq_true]
    refine ⟨?_, ?_⟩
    · rw [htw]
      simpa using hw
    · refine List.any_eq_true.mpr ⟨d, hd, ?_⟩
      rw [htw, List.drop_left]
      exact (hasPre_iff _ _).mpr ⟨r, rfl⟩

/-- Modelled from the spec's words (§4.4): the trimmed text begins with
`flowchart` or `graph`, followed by whitespace and one of `TD`, `LR`, `TB`,
`RL`, `BT`, case-insensitively.  Case-insensitive matching is stated on the
ASCII-lowered trimmed text (whitespace is unaffected by lowering). -/
def SpecMermaid (content : Str) : Prop :=
  ∃ (w d r : Str),
    (lowerStr (pyStrip content) = ("flowchart".data) ++ (w ++ (d ++ r)) ∨
     lowerStr (pyStrip content) = ("graph".data) ++ (w ++ (d ++ r))) ∧
    w ≠ [] ∧ (∀ c ∈ w, isPyWs c = true) ∧ d ∈ mermaidDirs

theorem detect_format_branch (kw cs : Str) :
    (hasPre kw cs && wsThenDir (cs.drop kw.length)) = true ↔
      ∃ (w d r : Str), cs = kw ++ (w ++ (d ++ r)) ∧ w ≠ [] ∧
        (∀ c ∈ w, isPyWs c = true) ∧ d ∈ mermaidDirs := by
  constructor
  · intro h
    simp only [Bool.and_eq_true] at h
    obtain ⟨hpre, hws⟩ := h
    obtain ⟨t, rfl⟩ := (hasPre_iff _ _).mp hpre
    rw [List.drop_left] at hws
    obtain ⟨w, d, r, rfl, hw, hmem, hd⟩ := (wsThenDir_iff t).mp hws
    exact ⟨w, d, r, rfl, hw, hmem, hd⟩
  · rintro ⟨w, d, r, rfl, hw, hmem, hd⟩
    simp only [Bool.and_eq_true]
    refine ⟨(hasPre_iff _ _).mpr ⟨_, rfl⟩, ?_⟩
    rw [List.drop_left]
    exact (wsThenDir_iff _).mpr ⟨w, d, r, rfl, hw, hmem, hd⟩

/-- The two mermaid branches of `detect_format` against the spec's
decomposition. -/
theorem detect_format_iff (content : Str) :
    detect_format content = ("mermaid".data) ↔ SpecMermaid content := by
  unfold detect_format
  by_cases h1 : (hasPre ("flowchart".data) (lowerStr (pyStrip content)) &&
      wsThenDir ((lowerStr (pyStrip content)).drop 9)) = true
  · rw [if_pos h1]
    constructor
    · intro _
      obtain ⟨w, d, r, heq, hw, hmem, hd⟩ :=
        (detect_format_branch ("flowchart".data) _).mp h1
      exact ⟨w, d, r, Or.inl heq, hw, hmem, hd⟩
    · intro _; rfl
  · rw [if_neg h1]
    by_cases h2 : (hasPre ("graph".data) (lowerStr (pyStrip content)) &&
        wsThenDir ((lowerStr (pyStrip content)).drop 5)) = true
    · rw [if_pos h2]
      constructor
      · intro _
        obtain ⟨w, d, r, heq, hw, hmem, hd⟩ :=
          (detect_format_branch ("graph".data) _).mp h2
        exact ⟨w, d, r, Or.inr heq, hw, hmem, hd⟩
      · intro _; rfl
    · rw [if_neg h2]
      constructor
      · intro hcon
        exact absurd hcon (by decide)
      · rintro ⟨w, d, r, hcase, hw, hmem, hd⟩
        rcases hcase with heq | heq
        · exact absurd ((detect_format_branch ("flowchart".data) _).mpr
            ⟨w, d, r, heq, hw, hmem, hd⟩) h1
        · exact absurd ((detect_format_branch ("graph".data) _).mpr
            ⟨w, d, r, heq, hw, hmem, hd⟩) h2

/-- `detect_format` returns one of the two format names on every input. -/
theorem detect_format_total (content : Str) :
    detect_format content = ("mermaid".data) ∨
    detect_format content = ("markdown".data) := by
  unfold detect_format
  split
  · left; rfl
  · split
    · left; rfl
    · right; rfl

namespace MermaidParser

theorem skipToDecl_of_none : ∀ {lines : List Str},
    lines.all (fun l => !(hasPre ("flowchart".data) (pyStrip l) ||
      hasPre ("graph".data) (pyStrip l))) = true →
    skipToDecl lines = [] := by
  intro lines
  induction lines with
  | nil => intro _; rfl
  | cons line rest ih =>
    intro h
    simp only [List.all_cons, Bool.and_eq_true] at h
    obtain ⟨hl, hrest⟩ := h
    have hcond : (hasPre ("flowchart".data) (pyStrip line) ||
        hasPre ("graph".data) (pyStrip line)) = false := by
      simpa using hl
    rw [skipToDecl, if_neg (by simp [hcond])]
    exact ih hrest

/-- With no declaration line, the whole input is skipped and the parse
returns the empty graph. -/
theorem parse_no_decl {content : Str}
    (h : (splitOnNl content).all (fun l => !(hasPre ("flowchart".data) (pyStrip l) ||
      hasPre ("graph".data) (pyStrip l))) = true) :
    parse content = some ⟨[], []⟩ := by
  unfold parse parseE
  rw [skipToDecl_of_none h]
  rfl

end MermaidParser

namespace MarkdownParser

theorem parse_nodes_def (content : Str) :
    (parse content).nodes =
      (mdLoop (splitOnNl content).length (splitOnNl content) initState).nodes := rfl

theorem parse_edges_def (content : Str) :
    (parse content).edges =
      (mdLoop (splitOnNl content).length (splitOnNl content) initState).edges := rfl

end MarkdownParser

/-! ## The claims -/

/-- Claim C1 (code bug): the converters are claimed total, but the Diagram
Converter raises on the input `"flowchart TD\n--> B"`: the edge statement
`--> B` has an unparseable source fragment, `_extract_node_info` returns
`(None, None, None)`, and — unlike `_parse_node_definition`, which guards
with `if node_id` — `_parse_edge_statement` constructs
`PlaybookNode(label=None)`, which pydantic rejects (`label : str` is
required).  In the embedding the raised `ValidationError` is the `none`
result. -/
theorem c1_mermaid_raises_on_unparsed_source :
    MermaidParser.parse ("flowchart TD\n--> B".data) = none ∧
    (MermaidParser.parseE ("flowchart TD\n--> B".data)).2 = false := by
  exact ⟨rfl, rfl⟩

/-- Claim C2, counterexample: on `"A[[Sub]]"` the Diagram Converter does
not produce the label `"Sub"`: the single-bracket pattern is tried first
(dict insertion order), so the unique node produced is labeled `"[Sub"`,
which differs from `"Sub"`. -/
theorem c2_double_bracket_cex :
    ((MermaidParser.parse ("flowchart TD\nA[[Sub]]".data)).map
      (fun g => g.nodes.map PlaybookNode.label)) = some [("[Sub".data)] ∧
    ("[Sub".data) ≠ ("Sub".data) := by
  exact ⟨rfl, by decide⟩

/-- Claim C2, amended: `NODE_PATTERNS` is iterated in dict insertion order
— single-bracket, brace, double-paren, paren, flag, double-bracket — so the
double-bracket pattern is shadowed by the single-bracket one and
`"A[[Sub]]"` yields one `step` node whose label is `"[Sub"`. -/
theorem c2_double_bracket_amended :
    MermaidParser.parse ("flowchart TD\nA[[Sub]]".data) =
      some ⟨[⟨("node_0".data), ("[Sub".data), ("step".data),
             [(("mermaid_id".data), .s ("A".data)), (("subgraph".data), .nil)]⟩],
            []⟩ := by
  rfl

/-- Claim C3: for every input and either converter, node ids are exactly
`node_0 … node_(n-1)` in creation order and edge ids are exactly
`edge_0 … edge_(m-1)`, hence pairwise distinct, with the two counters
independent. -/
theorem c3_id_uniqueness :
    (∀ content : Str,
      nodeIds (MarkdownParser.parse content).nodes =
        (List.range (MarkdownParser.parse content).nodes.length).map nodeIdStr ∧
      (nodeIds (MarkdownParser.parse content).nodes).Nodup ∧
      edgeIds (MarkdownParser.parse content).edges =
        (List.range (MarkdownParser.parse content).edges.length).map edgeIdStr ∧
      (edgeIds (MarkdownParser.parse content).edges).Nodup) ∧
    (∀ (content : Str) (g : PlaybookGraph), MermaidParser.parse content = some g →
      nodeIds g.nodes = (List.range g.nodes.length).map nodeIdStr ∧
      (nodeIds g.nodes).Nodup ∧
      edgeIds g.edges = (List.range g.edges.length).map edgeIdStr ∧
      (edgeIds g.edges).Nodup) := by
  constructor
  · intro content
    obtain ⟨⟨hn, he⟩, _⟩ := MarkdownParser.parse_state_inv content
    have hcn : (MarkdownParser.mdLoop (splitOnNl content).length (splitOnNl content)
          MarkdownParser.initState).nodes.length =
        (MarkdownParser.mdLoop (splitOnNl content).length (splitOnNl content)
          MarkdownParser.initState).nodeCounter := by
      simpa [nodeIds] using congrArg List.length hn
    have hce : (MarkdownParser.mdLoop (splitOnNl content).length (splitOnNl content)
          MarkdownParser.initState).edges.length =
        (MarkdownParser.mdLoop (splitOnNl content).length (splitOnNl content)
          MarkdownParser.initState).edgeCounter := by
      simpa [edgeIds] using congrArg List.length he
    refine ⟨?_, ?_, ?_, ?_⟩
    · rw [MarkdownParser.parse_nodes_def, hcn, hn]
    · rw [MarkdownParser.parse_nodes_def, hn]
      exact nodup_range_map_nodeIdStr _
    · rw [MarkdownParser.parse_edges_def, hce, he]
    · rw [MarkdownParser.parse_edges_def, he]
      exact nodup_range_map_edgeIdStr _
  · intro content g hparse
    obtain ⟨st, hinv, hng, heg⟩ := MermaidParser.parse_ok hparse
    obtain ⟨h1, h2, _, _, _, _⟩ := hinv
    have hcn : st.nodes.length = st.nodeCounter := by
      simpa [nodeIds] using congrArg List.length h1
    have hce : st.edges.length = st.edgeCounter := by
      simpa [edgeIds] using congrArg List.length h2
    refine ⟨?_, ?_, ?_, ?_⟩
    · rw [hng, hcn, h1]
    · rw [hng, h1]
      exact nodup_range_map_nodeIdStr _
    · rw [heg, hce, h2]
    · rw [heg, h2]
      exact nodup_range_map_edgeIdStr _

/-- Witness for C3 at a concrete mermaid input and graph. -/
theorem c3_id_uniqueness_witness :
    nodeIds (⟨[⟨("node_0".data), ("X".data), ("step".data),
        [(("mermaid_id".data), .s ("X".data)), (("subgraph".data), .nil)]⟩,
       ⟨("node_1".data), ("Y".data), ("step".data),
        [(("mermaid_id".data), .s ("Y".data)), (("subgraph".data), .nil)]⟩],
      [⟨("edge_0".data), ("node_0".data), ("node_1".data), none⟩]⟩ :
        PlaybookGraph).nodes =
      (List.range 2).map nodeIdStr ∧
    (nodeIds (⟨[⟨("node_0".data), ("X".data), ("step".data),
        [(("mermaid_id".data), .s ("X".data)), (("subgraph".data), .nil)]⟩,
       ⟨("node_1".data), ("Y".data), ("step".data),
        [(("mermaid_id".data), .s ("Y".data)), (("subgraph".data), .nil)]⟩],
      [⟨("edge_0".data), ("node_0".data), ("node_1".data), none⟩]⟩ :
        PlaybookGraph).nodes).Nodup := by
  have h := (c3_id_uniqueness.2 ("flowchart TD\nX --> Y".data)
    ⟨[⟨("node_0".data), ("X".data), ("step".data),
        [(("mermaid_id".data), .s ("X".data)), (("subgraph".data), .nil)]⟩,
      ⟨("node_1".data), ("Y".data), ("step".data),
        [(("mermaid_id".data), .s ("Y".data)), (("subgraph".data), .nil)]⟩],
     [⟨("edge_0".data), ("node_0".data), ("node_1".data), none⟩]⟩ (by rfl))
  exact ⟨h.1, h.2.1⟩

/-- Claim C4: every edge of every returned graph, for either converter,
has a source and a target equal to the id of some node of the same
graph. -/
theorem c4_referential_integrity :
    (∀ content : Str, ∀ e ∈ (MarkdownParser.parse content).edges,
      e.source ∈ nodeIds (MarkdownParser.parse content).nodes ∧
      e.target ∈ nodeIds (MarkdownParser.parse content).nodes) ∧
    (∀ (content : Str) (g : PlaybookGraph), MermaidParser.parse content = some g →
      ∀ e ∈ g.edges,
        e.source ∈ nodeIds g.nodes ∧ e.target ∈ nodeIds g.nodes) := by
  constructor
  · intro content e he
    obtain ⟨_, hr, _⟩ := MarkdownParser.parse_state_inv content
    rw [MarkdownParser.parse_nodes_def]
    rw [MarkdownParser.parse_edges_def] at he
    exact hr e he
  · intro content g hparse e he
    obtain ⟨st, hinv, hng, heg⟩ := MermaidParser.parse_ok hparse
    obtain ⟨_, _, _, h4, _, _⟩ := hinv
    rw [hng]
    rw [heg] at he
    exact h4 e he

/-- Witness for C4 at a concrete markdown input and edge. -/
theorem c4_referential_integrity_witness :
    (⟨("edge_0".data), ("node_0".data), ("node_1".data), none⟩ :
        PlaybookEdge).source ∈
      nodeIds (MarkdownParser.parse ("1. a\n2. b".data)).nodes ∧
    (⟨("edge_0".data), ("node_0".data), ("node_1".data), none⟩ :
        PlaybookEdge).target ∈
      nodeIds (MarkdownParser.parse ("1. a\n2. b".data)).nodes :=
  c4_referential_integrity.1 ("1. a\n2. b".data)
    ⟨("edge_0".data), ("node_0".data), ("node_1".data), none⟩ (by decide)

/-- Claim C5: the Outline Converter on `"- If x\n  - A\n  - B"` produces
exactly one decision node labeled `"X?"` (keyword stripped, capitalized,
`?` appended), two branch step nodes `"A"`/`"B"`, one merge node, and the
edges decision→A labeled yes, A→merge, decision→B labeled no, B→merge. -/
theorem c5_decision_branch_merge :
    MarkdownParser.parse ("- If x\n  - A\n  - B".data) =
      ⟨[⟨("node_0".data), ("X?".data), ("decision".data),
         [(("condition".data), .s ("If x".data))]⟩,
        ⟨("node_1".data), ("A".data), ("step".data),
         [(("branch".data), .s ("yes".data))]⟩,
        ⟨("node_2".data), ("Continue".data), ("merge".data),
         [(("merge_type".data), .s ("decision".data))]⟩,
        ⟨("node_3".data), ("B".data), ("step".data),
         [(("branch".data), .s ("no".data))]⟩],
       [⟨("edge_0".data), ("node_0".data), ("node_1".data), some ("yes".data)⟩,
        ⟨("edge_1".data), ("node_1".data), ("node_2".data), none⟩,
        ⟨("edge_2".data), ("node_0".data), ("node_3".data), some ("no".data)⟩,
        ⟨("edge_3".data), ("node_3".data), ("node_2".data), none⟩]⟩ := by
  rfl

/-- Claim C6: for every diagram input, each literal identifier tags at most
one node of the returned graph; and the two statements `A[Start]` then
`A --> B[End]` produce exactly one node for `A` (two nodes and one edge in
total). -/
theorem c6_mermaid_dedup :
    (∀ (content : Str) (g : PlaybookGraph) (lit : Str),
      MermaidParser.parse content = some g →
      MermaidParser.countMid g.nodes lit ≤ 1) ∧
    MermaidParser.parse ("flowchart TD\nA[Start]\nA --> B[End]".data) =
      some ⟨[⟨("node_0".data), ("Start".data), ("step".data),
              [(("mermaid_id".data), .s ("A".data)), (("subgraph".data), .nil)]⟩,
             ⟨("node_1".data), ("End".data), ("step".data),
              [(("mermaid_id".data), .s ("B".data)), (("subgraph".data), .nil)]⟩],
            [⟨("edge_0".data), ("node_0".data), ("node_1".data), none⟩]⟩ := by
  constructor
  · intro content g lit hparse
    obtain ⟨st, hinv, hng, _⟩ := MermaidParser.parse_ok hparse
    obtain ⟨_, _, _, _, _, h6⟩ := hinv
    rw [hng, h6 lit]
    split
    · exact Nat.le_refl 1
    · exact Nat.zero_le 1
  · rfl

/-- Witness for C6 at the concrete example graph. -/
theorem c6_mermaid_dedup_witness :
    MermaidParser.countMid
      (⟨[⟨("node_0".data), ("Start".data), ("step".data),
          [(("mermaid_id".data), .s ("A".data)), (("subgraph".data), .nil)]⟩,
         ⟨("node_1".data), ("End".data), ("step".data),
          [(("mermaid_id".data), .s ("B".data)), (("subgraph".data), .nil)]⟩],
        [⟨("edge_0".data), ("node_0".data), ("node_1".data), none⟩]⟩ :
          PlaybookGraph).nodes ("A".data) ≤ 1 :=
  c6_mermaid_dedup.1 ("flowchart TD\nA[Start]\nA --> B[End]".data) _ ("A".data)
    c6_mermaid_dedup.2

/-- Claim C7: for every input and either converter, the returned graph does
not depend on the prior instance state (the reset at the top of `parse`
discards it), so converting twice — also twice on the same instance —
yields identical graphs; in the embedding a conversion is a pure function
of the input. -/
theorem c7_determinism_idempotence :
    (∀ (content : Str) (i1 i2 : MarkdownParser.MdState),
      (MarkdownParser.parseInst i1 content).1 =
        (MarkdownParser.parseInst i2 content).1) ∧
    (∀ (content : Str) (i : MarkdownParser.MdState),
      (MarkdownParser.parseInst (MarkdownParser.parseInst i content).2 content).1 =
        (MarkdownParser.parseInst i content).1) ∧
    (∀ (content : Str) (i1 i2 : MermaidParser.MmState),
      (MermaidParser.parseInst i1 content).1 =
        (MermaidParser.parseInst i2 content).1) ∧
    (∀ (content : Str) (i : MermaidParser.MmState),
      (MermaidParser.parseInst (MermaidParser.parseInst i content).2 content).1 =
        (MermaidParser.parseInst i content).1) :=
  ⟨fun _ _ _ => rfl, fun _ _ => rfl, fun _ _ _ => rfl, fun _ _ => rfl⟩

/-- Claim C8: `detect_format` returns `"mermaid"` exactly when the trimmed
text begins with `flowchart` or `graph` followed by whitespace and one of
TD, LR, TB, RL, BT (case-insensitively, per `SpecMermaid`), and returns
`"markdown"` on every other input. -/
theorem c8_format_selector :
    ∀ content : Str,
      (detect_format content = ("mermaid".data) ↔ SpecMermaid content) ∧
      (detect_format content = ("mermaid".data) ∨
        detect_format content = ("markdown".data)) :=
  fun content => ⟨detect_format_iff content, detect_format_total content⟩

/-- Witness for C8: the spec decomposition of `"flowchart TD\nA-->B"`
selects the diagram converter. -/
theorem c8_format_selector_witness :
    detect_format ("flowchart TD\nA-->B".data) = ("mermaid".data) :=
  (c8_format_selector ("flowchart TD\nA-->B".data)).1.mpr
    ⟨[' '], ("td".data), ("\na-->b".data),
      Or.inl (by decide), by decide, by decide, by decide⟩

/-- Claim C9: every node of every graph returned by the Diagram Converter
has type `step`, `decision` or `phase`; it never emits `merge` or
`execute` nodes. -/
theorem c9_mermaid_type_range :
    ∀ (content : Str) (g : PlaybookGraph), MermaidParser.parse content = some g →
      ∀ n ∈ g.nodes,
        n.type = ("step".data) ∨ n.type = ("decision".data) ∨
        n.type = ("phase".data) := by
  intro content g hparse n hn
  obtain ⟨st, hinv, hng, _⟩ := MermaidParser.parse_ok hparse
  obtain ⟨_, _, _, _, h5, _⟩ := hinv
  rw [hng] at hn
  exact h5 n hn

/-- Witness for C9 at a concrete diagram and node. -/
theorem c9_mermaid_type_range_witness :
    (⟨("node_0".data), ("Q".data), ("decision".data),
      [(("mermaid_id".data), .s ("A".data)), (("subgraph".data), .nil)]⟩ :
        PlaybookNode).type = ("step".data) ∨
    (⟨("node_0".data), ("Q".data), ("decision".data),
      [(("mermaid_id".data), .s ("A".data)), (("subgraph".data), .nil)]⟩ :
        PlaybookNode).type = ("decision".data) ∨
    (⟨("node_0".data), ("Q".data), ("decision".data),
      [(("mermaid_id".data), .s ("A".data)), (("subgraph".data), .nil)]⟩ :
        PlaybookNode).type = ("phase".data) :=
  c9_mermaid_type_range ("flowchart TD\nA{Q}".data)
    ⟨[⟨("node_0".data), ("Q".data), ("decision".data),
       [(("mermaid_id".data), .s ("A".data)), (("subgraph".data), .nil)]⟩], []⟩
    (by rfl) _ (by decide)

/-- Claim C10: when no line's stripped form starts with `flowchart` or
`graph`, the Diagram Converter returns the empty graph. -/
theorem c10_no_declaration_empty :
    ∀ content : Str,
      (splitOnNl content).all (fun l =>
        !(hasPre ("flowchart".data) (pyStrip l) ||
          hasPre ("graph".data) (pyStrip l))) = true →
      MermaidParser.parse content = some ⟨[], []⟩ :=
  fun _ h => MermaidParser.parse_no_decl h

/-- Witness for C10 at a concrete declaration-free input. -/
theorem c10_no_declaration_empty_witness :
    MermaidParser.parse ("hello\nworld".data) = some ⟨[], []⟩ :=
  c10_no_declaration_empty ("hello\nworld".data) (by decide)
